import Mathlib

/-
Shallow embedding of the deps-python repository (src/collect.py, src/act.py,
src/models.py): the dependency-file model, the collection engine and the
action engine, together with theorems settling the specification claims.

Python dicts are modelled as ordered association lists with Python's
assignment semantics (an assignment to an existing key replaces the value in
place, keeping the key's position; a new key is appended at the end).
Python strings are modelled as Lean `String` for dependency names and as
`List Char` for file paths where slicing (`input_path[:-5]`) matters.
External collaborators (hashlib digests, the dparse parser's results, the
pip / pipenv / poetry subprocesses) are parameters of the embedding: the
code under verification treats them as black boxes.
-/

namespace DepsPython

/-- Python dict assignment `d[k] = v`: replace in place if `k` is present,
otherwise append the new pair at the end. -/
def dictInsert {κ α : Type} [DecidableEq κ] : List (κ × α) → κ → α → List (κ × α)
  | [], k, v => [(k, v)]
  | (k', v') :: rest, k, v =>
      if k' = k then (k, v) :: rest else (k', v') :: dictInsert rest k v

/-- Python dict lookup `d[k]` (`none` models a KeyError). -/
def dictFind {κ α : Type} [DecidableEq κ] : List (κ × α) → κ → Option α
  | [], _ => none
  | (k', v') :: rest, k => if k' = k then some v' else dictFind rest k

theorem dictFind_dictInsert_self {κ α : Type} [DecidableEq κ]
    (d : List (κ × α)) (k : κ) (v : α) : dictFind (dictInsert d k v) k = some v := by
  induction d with
  | nil => simp [dictInsert, dictFind]
  | cons p rest ih =>
      obtain ⟨k', v'⟩ := p
      by_cases h : k' = k
      · simp [dictInsert, dictFind, h]
      · simp [dictInsert, dictFind, h, ih]

theorem dictFind_dictInsert_ne {κ α : Type} [DecidableEq κ]
    (d : List (κ × α)) (k k' : κ) (v : α) (h : k' ≠ k) :
    dictFind (dictInsert d k v) k' = dictFind d k' := by
  have hne : ¬ k = k' := fun hh => h hh.symm
  induction d with
  | nil => simp [dictInsert, dictFind, hne]
  | cons p rest ih =>
      obtain ⟨k₀, v₀⟩ := p
      by_cases h0 : k₀ = k
      · subst h0
        simp [dictInsert, dictFind, hne]
      · simp [dictInsert, dictFind, h0, ih]

theorem mem_dictInsert {κ α : Type} [DecidableEq κ]
    (d : List (κ × α)) (k : κ) (v : α) (p : κ × α) (hp : p ∈ dictInsert d k v) :
    p ∈ d ∨ p = (k, v) := by
  induction d with
  | nil => simp [dictInsert] at hp; simp [hp]
  | cons q rest ih =>
      obtain ⟨k₀, v₀⟩ := q
      by_cases h0 : k₀ = k
      · simp [dictInsert, h0] at hp
        rcases hp with hp | hp
        · right; simp [hp]
        · left; simp [hp]
      · simp [dictInsert, h0] at hp
        rcases hp with hp | hp
        · left; simp [hp]
        · rcases ih hp with h | h
          · left; simp [h]
          · right; exact h

/-! Path substitution at the top of `collect` (src/collect.py lines 9-14).
Paths are `List Char`; Python `input_path[:-n]` is `take (length - n)`. -/

/-- Python `s.endswith(t)` on path strings. -/
def pyEndswith (s t : List Char) : Bool := t.isSuffixOf s

/-- Translation of the input-path substitution at the start of `collect`:
a path ending in `Pipfile.lock` has the trailing `.lock` stripped; a path
ending in `poetry.lock` has that suffix replaced by `pyproject.toml`; any
other path is used as given. -/
def collectInputPath (p : List Char) : List Char :=
  if pyEndswith p "Pipfile.lock".toList then p.take (p.length - 5)
  else if pyEndswith p "poetry.lock".toList then
    p.take (p.length - 11) ++ "pyproject.toml".toList
  else p

theorem pyEndswith_append (p t : List Char) : pyEndswith (p ++ t) t = true := by
  rw [pyEndswith, List.isSuffixOf_iff_suffix]
  exact List.suffix_append p t

theorem poetry_not_pipfilelock (p : List Char) :
    pyEndswith (p ++ "poetry.lock".toList) "Pipfile.lock".toList = false := by
  rw [pyEndswith, Bool.eq_false_iff]
  intro h
  rw [List.isSuffixOf_iff_suffix] at h
  have h2 : "poetry.lock".toList <:+ p ++ "poetry.lock".toList := List.suffix_append _ _
  have h3 : "poetry.lock".toList <:+ "Pipfile.lock".toList :=
    List.suffix_of_suffix_length_le h2 h (by decide)
  exact absurd h3 (by decide)

theorem collectInputPath_pipfile (p : List Char) :
    collectInputPath (p ++ "Pipfile.lock".toList) = p ++ "Pipfile".toList := by
  rw [collectInputPath, pyEndswith_append]
  simp only [if_true]
  rw [List.length_append]
  have hL : ("Pipfile.lock".toList).length = 12 := by decide
  rw [hL]
  have h1 : p.length + 12 - 5 = p.length + 7 := by omega
  rw [h1, List.take_append_eq_append_take, List.take_of_length_le (by omega)]
  have h2 : p.length + 7 - p.length = 7 := by omega
  rw [h2]
  have h3 : ("Pipfile.lock".toList).take 7 = "Pipfile".toList := by decide
  rw [h3]

theorem collectInputPath_poetry (p : List Char) :
    collectInputPath (p ++ "poetry.lock".toList) = p ++ "pyproject.toml".toList := by
  rw [collectInputPath, poetry_not_pipfilelock]
  simp only [Bool.false_eq_true, if_false]
  rw [pyEndswith_append]
  simp only [if_true]
  rw [List.length_append]
  have hL : ("poetry.lock".toList).length = 11 := by decide
  rw [hL]
  have h1 : p.length + 11 - 11 = p.length := by omega
  rw [h1, List.take_append_eq_append_take, List.take_of_length_le (by omega)]
  have h2 : p.length - p.length = 0 := by omega
  rw [h2]
  simp

/-- C10: when `collect` is invoked with an input path ending in `Pipfile.lock`
it substitutes the sibling `Pipfile` path as the starting manifest; a path
ending in `poetry.lock` is replaced by the sibling `pyproject.toml` path; any
other input path is used as given. -/
theorem collect_input_path_substitution (p : List Char) :
    collectInputPath (p ++ "Pipfile.lock".toList) = p ++ "Pipfile".toList ∧
    collectInputPath (p ++ "poetry.lock".toList) = p ++ "pyproject.toml".toList ∧
    (pyEndswith p "Pipfile.lock".toList = false →
      pyEndswith p "poetry.lock".toList = false →
      collectInputPath p = p) := by
  refine ⟨collectInputPath_pipfile p, collectInputPath_poetry p, ?_⟩
  intro h1 h2
  rw [collectInputPath, h1, h2]
  simp

theorem collect_input_path_substitution_witness :
    collectInputPath ("proj/".toList ++ "Pipfile.lock".toList) = "proj/".toList ++ "Pipfile".toList ∧
    collectInputPath ("proj/".toList ++ "poetry.lock".toList) = "proj/".toList ++ "pyproject.toml".toList ∧
    collectInputPath "proj/".toList = "proj/".toList := by
  have h := collect_input_path_substitution "proj/".toList
  exact ⟨h.1, h.2.1, h.2.2 (by decide) (by decide)⟩

/-! Data model of the external collaborators (src/models.py).
A `DparseDep` is one dependency as returned by the external dparse parser:
`key`, `str(dep.specs)` (as `specsStr`), the constraint-containment test
`dep.specs.contains` (as `specsContains`), `source` and `section` (renamed
`sectionName`, `section` being a Lean keyword).  An `OutdatedItem` is one
entry of the JSON list printed by `pip list --local --outdated`. -/

structure DparseDep where
  key : String
  specsStr : String
  specsContains : String → Bool
  source : String
  sectionName : String

structure OutdatedItem where
  name : String
  latest_version : String
deriving DecidableEq

/-- Python `s.lower()` (ASCII case folding, which is what dependency names
use). `String.toLower` itself is not kernel-reducible, so the map is spelled
out over the character list. -/
def pyLower (s : String) : String := String.mk (s.toList.map Char.toLower)

/-- Translation of `DepFile._get_outdated_version_of_dependency`: the first
item of the outdated list whose name matches case-insensitively, else None. -/
def getOutdatedVersionOfDependency (outdated : List OutdatedItem) (name : String) : Option String :=
  match outdated with
  | [] => none
  | item :: rest =>
      if pyLower item.name = pyLower name then some item.latest_version
      else getOutdatedVersionOfDependency rest name

theorem getOutdatedVersionOfDependency_mem (outdated : List OutdatedItem)
    (name v : String) (h : getOutdatedVersionOfDependency outdated name = some v) :
    ∃ item ∈ outdated, item.latest_version = v := by
  induction outdated with
  | nil => cases h
  | cons item rest ih =>
      rw [getOutdatedVersionOfDependency] at h
      by_cases hc : pyLower item.name = pyLower name
      · rw [if_pos hc] at h
        exact ⟨item, List.mem_cons_self _ _, Option.some_injective _ h⟩
      · rw [if_neg hc] at h
        obtain ⟨i, hi, hv⟩ := ih h
        exact ⟨i, List.mem_cons_of_mem _ hi, hv⟩

/-- One entry of a `current` / `updated` dependencies mapping in the
inventory: `{"source": ..., "constraint": ...}`. -/
structure DepOut where
  source : String
  constraint : String
deriving DecidableEq

/-- The `{"current": {"dependencies": ...}, "updated": {"dependencies": ...}}`
object a manifest's `get_dependencies` returns. -/
structure PhaseDeps where
  currentDeps : List (String × DepOut)
  updatedDeps : List (String × DepOut)
deriving DecidableEq

/-- Python `str(dep.specs) or "*"`. -/
def currentConstraint (dep : DparseDep) : String :=
  if dep.specsStr = "" then "*" else dep.specsStr

/-- Loop body of `Requirements.get_dependencies` (src/models.py lines 91-105):
always record the current constraint; record an updated `==`-pinned entry only
when the outdated oracle reports a (truthy, i.e. non-empty) latest version not
contained in the current specs. -/
def requirementsStep (outdated : List OutdatedItem) (out : PhaseDeps) (dep : DparseDep) : PhaseDeps :=
  match getOutdatedVersionOfDependency outdated dep.key with
  | some latest =>
      if latest ≠ "" ∧ dep.specsContains latest = false then
        { currentDeps := dictInsert out.currentDeps dep.key ⟨dep.source, currentConstraint dep⟩,
          updatedDeps := dictInsert out.updatedDeps dep.key ⟨dep.source, "==" ++ latest⟩ }
      else
        { currentDeps := dictInsert out.currentDeps dep.key ⟨dep.source, currentConstraint dep⟩,
          updatedDeps := out.updatedDeps }
  | none =>
      { currentDeps := dictInsert out.currentDeps dep.key ⟨dep.source, currentConstraint dep⟩,
        updatedDeps := out.updatedDeps }

namespace Requirements

/-- Translation of `Requirements.get_dependencies` (src/models.py lines
79-107): fold the loop body over the parsed dependencies, starting from the
empty current and updated mappings. -/
def get_dependencies (outdated : List OutdatedItem) (deps : List DparseDep) : PhaseDeps :=
  deps.foldl (requirementsStep outdated) ⟨[], []⟩

end Requirements

theorem requirementsStep_updated_ne (outdated : List OutdatedItem)
    (acc : PhaseDeps) (d : DparseDep) (k : String) (h : k ≠ d.key) :
    dictFind (requirementsStep outdated acc d).updatedDeps k = dictFind acc.updatedDeps k := by
  rw [requirementsStep]
  cases hg : getOutdatedVersionOfDependency outdated d.key with
  | none => rfl
  | some latest =>
      dsimp only
      by_cases hc : latest ≠ "" ∧ d.specsContains latest = false
      · rw [if_pos hc]
        exact dictFind_dictInsert_ne _ _ _ _ h
      · rw [if_neg hc]

theorem requirementsStep_updated_self (outdated : List OutdatedItem)
    (acc : PhaseDeps) (d : DparseDep) :
    dictFind (requirementsStep outdated acc d).updatedDeps d.key =
      match getOutdatedVersionOfDependency outdated d.key with
      | some latest =>
          if latest ≠ "" ∧ d.specsContains latest = false then
            some ⟨d.source, "==" ++ latest⟩
          else dictFind acc.updatedDeps d.key
      | none => dictFind acc.updatedDeps d.key := by
  rw [requirementsStep]
  cases hg : getOutdatedVersionOfDependency outdated d.key with
  | none => rfl
  | some latest =>
      dsimp only
      by_cases hc : latest ≠ "" ∧ d.specsContains latest = false
      · rw [if_pos hc, if_pos hc]
        exact dictFind_dictInsert_self _ _ _
      · rw [if_neg hc, if_neg hc]

theorem requirements_foldl_updated_untouched (outdated : List OutdatedItem)
    (deps : List DparseDep) (acc : PhaseDeps) (k : String)
    (hk : k ∉ deps.map DparseDep.key) :
    dictFind (deps.foldl (requirementsStep outdated) acc).updatedDeps k =
      dictFind acc.updatedDeps k := by
  induction deps generalizing acc with
  | nil => rfl
  | cons d rest ih =>
      rw [List.map_cons, List.mem_cons] at hk
      push_neg at hk
      rw [List.foldl_cons, ih _ hk.2, requirementsStep_updated_ne _ _ _ _ hk.1]

theorem requirements_foldl_updated_eq (outdated : List OutdatedItem)
    (deps : List DparseDep) (acc : PhaseDeps) (dep : DparseDep)
    (hmem : dep ∈ deps) (hnodup : (deps.map DparseDep.key).Nodup)
    (hacc : dictFind acc.updatedDeps dep.key = none) :
    dictFind (deps.foldl (requirementsStep outdated) acc).updatedDeps dep.key =
      match getOutdatedVersionOfDependency outdated dep.key with
      | some latest =>
          if latest ≠ "" ∧ dep.specsContains latest = false then
            some ⟨dep.source, "==" ++ latest⟩
          else none
      | none => none := by
  induction deps generalizing acc with
  | nil => cases hmem
  | cons d rest ih =>
      rw [List.map_cons, List.nodup_cons] at hnodup
      rw [List.foldl_cons]
      rcases List.mem_cons.mp hmem with rfl | hmem'
      · rw [requirements_foldl_updated_untouched outdated rest _ _ hnodup.1,
            requirementsStep_updated_self]
        cases hg : getOutdatedVersionOfDependency outdated dep.key with
        | none => exact hacc
        | some latest =>
            dsimp only
            by_cases hc : latest ≠ "" ∧ dep.specsContains latest = false
            · rw [if_pos hc, if_pos hc]
            · rw [if_neg hc, if_neg hc]
              exact hacc
      · have hd : dep.key ≠ d.key := by
          intro hh
          exact hnodup.1 (hh ▸ List.mem_map_of_mem DparseDep.key hmem')
        refine ih _ hmem' hnodup.2 ?_
        rw [requirementsStep_updated_ne _ _ _ _ hd]
        exact hacc

/-- C4: during manifest collection an entry appears in `updated.dependencies`
for a dependency if and only if the outdated oracle reports a latest version
for it that is not contained in its current constraint specs; when present,
the updated constraint is exactly the string `==` concatenated with that
latest version (exact pin policy). -/
theorem requirements_updated_entry_iff (outdated : List OutdatedItem)
    (deps : List DparseDep) (dep : DparseDep)
    (hmem : dep ∈ deps) (hnodup : (deps.map DparseDep.key).Nodup)
    (hne : ∀ item ∈ outdated, item.latest_version ≠ "") :
    ((dictFind (Requirements.get_dependencies outdated deps).updatedDeps dep.key).isSome = true ↔
      ∃ v, getOutdatedVersionOfDependency outdated dep.key = some v ∧
        dep.specsContains v = false) ∧
    (∀ o, dictFind (Requirements.get_dependencies outdated deps).updatedDeps dep.key = some o →
      ∃ v, getOutdatedVersionOfDependency outdated dep.key = some v ∧
        dep.specsContains v = false ∧ o = ⟨dep.source, "==" ++ v⟩) := by
  have hE := requirements_foldl_updated_eq outdated deps ⟨[], []⟩ dep hmem hnodup rfl
  rw [Requirements.get_dependencies, hE]
  cases hg : getOutdatedVersionOfDependency outdated dep.key with
  | none =>
      constructor
      · simp
      · intro o ho; cases ho
  | some latest =>
      dsimp only
      have hlat : latest ≠ "" := by
        obtain ⟨item, hi, hv⟩ := getOutdatedVersionOfDependency_mem outdated dep.key latest hg
        exact hv ▸ hne item hi
      by_cases hc : dep.specsContains latest = false
      · rw [if_pos ⟨hlat, hc⟩]
        constructor
        · simp only [Option.isSome_some, true_iff]
          exact ⟨latest, rfl, hc⟩
        · intro o ho
          exact ⟨latest, rfl, hc, (Option.some_injective _ ho).symm⟩
      · rw [if_neg (fun hh => hc hh.2)]
        constructor
        · simp only [Option.isSome_none, Bool.false_eq_true, false_iff]
          rintro ⟨v, hv, hcv⟩
          exact hc ((Option.some_injective _ hv) ▸ hcv)
        · intro o ho; cases ho

theorem requirements_updated_entry_iff_witness :
    (dictFind (Requirements.get_dependencies [⟨"Foo", "2.5.0"⟩]
        [⟨"foo", ">=1.0,<2.0", fun v => v == "1.5.0", "pypi", "requirements"⟩]).updatedDeps
      "foo").isSome = true := by
  have h := requirements_updated_entry_iff [⟨"Foo", "2.5.0"⟩]
      [⟨"foo", ">=1.0,<2.0", fun v => v == "1.5.0", "pypi", "requirements"⟩]
      ⟨"foo", ">=1.0,<2.0", fun v => v == "1.5.0", "pypi", "requirements"⟩
      (by simp) (by simp)
      (by intro item hi; simp at hi; subst hi; decide)
  rw [h.1]
  exact ⟨"2.5.0", by decide, by decide⟩

/-! Lockfile model: `PipfileLock` (src/models.py lines 164-208). The parsed
JSON content of the lockfile is a top-level mapping from keys to values of an
opaque type `V` (json.loads / json.dumps are external collaborators, as is
hashlib's sha256). -/

/-- Python `s.lstrip("=")`. -/
def pyLstripEq (s : String) : String := String.mk (s.toList.dropWhile (fun c => c = '='))

/-- One entry of a lockfile `dependencies` mapping in the inventory:
`{"source": ..., "version": {"name": ...}, "is_transitive"?: ...}`; the
`is_transitive` key is only present when it was set (`none` = key absent). -/
structure LockDepOut where
  source : String
  versionName : String
  is_transitive : Option Bool
deriving DecidableEq

/-- Python `del d["_meta"]`-style deletion on the parsed top-level JSON
mapping: `none` models the KeyError raised when the key is absent. -/
def pyDelKey {V : Type} (d : List (String × V)) (k : String) : Option (List (String × V)) :=
  if d.any (fun kv => kv.1 == k) then some (d.filter (fun kv => !(kv.1 == k))) else none

/-- Loop body of `PipfileLock.get_dependencies` (src/models.py lines
198-206): record source and the `=`-stripped resolved version, and set
`is_transitive` only when the passed direct-dependency list is non-empty
(Python truthiness of `if direct_dependencies:`). -/
def pipfileLockStep (direct_dependencies : List String)
    (acc : List (String × LockDepOut)) (dep : DparseDep) : List (String × LockDepOut) :=
  dictInsert acc dep.key
    ⟨dep.source, pyLstripEq dep.specsStr,
      if direct_dependencies ≠ [] then
        some (!(direct_dependencies.contains dep.key))
      else none⟩

namespace PipfileLock

/-- Translation of `PipfileLock.get_dependencies` (src/models.py lines
188-208): keep only the configured sections, then fold the loop body. -/
def get_dependencies (pipfilelock_sections : List String) (deps : List DparseDep)
    (direct_dependencies : List String) : List (String × LockDepOut) :=
  (deps.filter (fun d => pipfilelock_sections.contains d.sectionName)).foldl
    (pipfileLockStep direct_dependencies) []

/-- Translation of `PipfileLock.fingerprint` (src/models.py lines 164-182):
delete the volatile top-level `_meta` block from the parsed content,
serialize the rest with the external `dumps`, hash with the external
`sha256hex`, and tag the digest with the algorithm name. -/
def fingerprint {V : Type} (dumps : List (String × V) → String)
    (sha256hex : String → String) (jsonData : List (String × V)) : Except Unit String :=
  match pyDelKey jsonData "_meta" with
  | none => .error ()
  | some d => .ok ("sha256:" ++ sha256hex (dumps d))

end PipfileLock

theorem pipfileLock_foldl_transitive (direct : List String) (hd : direct ≠ [])
    (ds : List DparseDep) (acc : List (String × LockDepOut))
    (hacc : ∀ p ∈ acc, p.2.is_transitive = some (!(direct.contains p.1))) :
    ∀ p ∈ ds.foldl (pipfileLockStep direct) acc,
      p.2.is_transitive = some (!(direct.contains p.1)) := by
  induction ds generalizing acc with
  | nil => exact hacc
  | cons d rest ih =>
      rw [List.foldl_cons]
      refine ih _ ?_
      intro p hp
      rcases mem_dictInsert _ _ _ _ hp with h | h
      · exact hacc p h
      · rw [h]
        simp only
        rw [if_pos hd]

theorem pipfileLock_get_dependencies_transitive (pipfilelock_sections : List String)
    (deps : List DparseDep) (direct : List String) (hd : direct ≠ [])
    (p : String × LockDepOut)
    (hp : p ∈ PipfileLock.get_dependencies pipfilelock_sections deps direct) :
    p.2.is_transitive = some (!(direct.contains p.1)) := by
  exact pipfileLock_foldl_transitive direct hd _ [] (by intro q hq; cases hq) p hp

/-- C6: the fingerprint of a `Pipfile.lock` is computed after removing the
volatile top-level `_meta` block and is tagged `sha256:<hex>`; consequently
two parsed contents that differ only in their `_meta` entry produce equal
fingerprints. -/
theorem pipfilelock_fingerprint_meta_insensitive {V : Type}
    (dumps : List (String × V) → String) (sha256hex : String → String)
    (o1 o2 : List (String × V))
    (h1 : o1.any (fun kv => kv.1 == "_meta") = true)
    (h2 : o2.any (fun kv => kv.1 == "_meta") = true)
    (heq : o1.filter (fun kv => !(kv.1 == "_meta")) = o2.filter (fun kv => !(kv.1 == "_meta"))) :
    ∃ hex, PipfileLock.fingerprint dumps sha256hex o1 = .ok ("sha256:" ++ hex) ∧
      PipfileLock.fingerprint dumps sha256hex o2 = .ok ("sha256:" ++ hex) := by
  refine ⟨sha256hex (dumps (o1.filter (fun kv => !(kv.1 == "_meta")))), ?_, ?_⟩
  · rw [PipfileLock.fingerprint, pyDelKey, if_pos h1]
  · rw [PipfileLock.fingerprint, pyDelKey, if_pos h2, heq]

theorem pipfilelock_fingerprint_meta_insensitive_witness :
    ∃ hex,
      PipfileLock.fingerprint (fun d => String.join (d.map (fun kv => kv.1 ++ kv.2)))
        (fun s => s) [("_meta", "host-a"), ("default", "requests==2.0")] =
        .ok ("sha256:" ++ hex) ∧
      PipfileLock.fingerprint (fun d => String.join (d.map (fun kv => kv.1 ++ kv.2)))
        (fun s => s) [("_meta", "host-b"), ("default", "requests==2.0")] =
        .ok ("sha256:" ++ hex) := by
  exact pipfilelock_fingerprint_meta_insensitive _ _
    [("_meta", "host-a"), ("default", "requests==2.0")]
    [("_meta", "host-b"), ("default", "requests==2.0")]
    (by decide) (by decide) (by decide)

/-! Collection engine (src/collect.py lines 21-68). The engine drives
manifest and lockfile objects polymorphically (Python duck typing), so the
embedding is parameterized by the object types `M` and `L` and by the method
tables below. `update` models `lockfile.update()` plus the reload it
performs, returning the reloaded object or a `NativeToolError`; `fingerprint`
can fail (`PipfileLock.fingerprint` raises on content without `_meta`).
In the code the `updated` block stores a repeated `lockfile.fingerprint()`
call; `fingerprint` is deterministic, so the single `post_fingerprint` value
below is that repeated call's result as well. -/

structure LockfileMethods (L : Type) where
  filename : L → List Char
  fingerprint : L → Except Unit String
  get_dependencies : L → List String → List (String × LockDepOut)
  update : L → Except Unit L

structure ManifestMethods (M L : Type) where
  filename : M → List Char
  get_dependencies : M → PhaseDeps
  lockfile : M → Option L

/-- One entry of the inventory's `lockfiles` mapping. -/
structure LockEntry where
  currentFingerprint : String
  currentDeps : List (String × LockDepOut)
  updated : Option (String × List (String × LockDepOut))
deriving DecidableEq

/-- The inventory document `collect` writes. -/
structure CollectOut where
  manifests : List (List Char × PhaseDeps)
  lockfiles : List (List Char × LockEntry)
deriving DecidableEq

/-- Manifest-processing loop of `collect` (src/collect.py lines 22-38):
record each manifest's dependencies, gather its lockfile if any, and extend
the global `direct_deps` list with the keys of its current dependencies. -/
def collectManifestStep {M L : Type} (mm : ManifestMethods M L)
    (acc : List (List Char × PhaseDeps) × List L × List String) (m : M) :
    List (List Char × PhaseDeps) × List L × List String :=
  let md := mm.get_dependencies m
  (dictInsert acc.1 (mm.filename m) md,
   acc.2.1 ++ (mm.lockfile m).toList,
   acc.2.2 ++ md.currentDeps.map Prod.fst)

def collectManifestPhase {M L : Type} (mm : ManifestMethods M L) (manifests : List M) :
    List (List Char × PhaseDeps) × List L × List String :=
  manifests.foldl (collectManifestStep mm) ([], [], [])

/-- Lockfile-processing loop of `collect` (src/collect.py lines 41-65):
record the pre-update fingerprint and dependencies, run the native update,
and attach an `updated` block to the entry exactly when the post-update
fingerprint differs. Any raised error aborts the whole run. -/
def collectLockfilePhase {L : Type} (lm : LockfileMethods L) (direct_deps : List String) :
    List (List Char × LockEntry) → List L → Except Unit (List (List Char × LockEntry))
  | acc, [] => .ok acc
  | acc, l :: rest =>
      match lm.fingerprint l with
      | .error e => .error e
      | .ok current_fingerprint =>
          match lm.update l with
          | .error e => .error e
          | .ok l2 =>
              match lm.fingerprint l2 with
              | .error e => .error e
              | .ok post_fingerprint =>
                  let current_dependencies := lm.get_dependencies l direct_deps
                  let acc1 := dictInsert acc (lm.filename l)
                    ⟨current_fingerprint, current_dependencies, none⟩
                  let acc2 :=
                    if current_fingerprint ≠ post_fingerprint then
                      dictInsert acc1 (lm.filename l)
                        ⟨current_fingerprint, current_dependencies,
                          some (post_fingerprint, lm.get_dependencies l2 direct_deps)⟩
                    else acc1
                  collectLockfilePhase lm direct_deps acc2 rest

/-- The whole of `collect` after input-path substitution and
`load_dependency_files` (which supplies the manifest list). -/
def collect {M L : Type} (mm : ManifestMethods M L) (lm : LockfileMethods L)
    (manifests : List M) : Except Unit CollectOut :=
  let phase := collectManifestPhase mm manifests
  match collectLockfilePhase lm phase.2.2 [] phase.2.1 with
  | .error e => .error e
  | .ok lockfilesOut => .ok ⟨phase.1, lockfilesOut⟩

theorem collectLockfilePhase_untouched {L : Type} (lm : LockfileMethods L)
    (direct : List String) (ls : List L) :
    ∀ (acc out : List (List Char × LockEntry)) (k : List Char),
      k ∉ ls.map lm.filename →
      collectLockfilePhase lm direct acc ls = .ok out →
      dictFind out k = dictFind acc k := by
  induction ls with
  | nil =>
      intro acc out k _ hrun
      cases hrun
      rfl
  | cons l rest ih =>
      intro acc out k hk hrun
      rw [List.map_cons, List.mem_cons] at hk
      push_neg at hk
      rw [collectLockfilePhase] at hrun
      cases hf : lm.fingerprint l with
      | error e => rw [hf] at hrun; cases hrun
      | ok fpPre =>
          rw [hf] at hrun
          dsimp only at hrun
          cases hu : lm.update l with
          | error e => rw [hu] at hrun; cases hrun
          | ok l2 =>
              rw [hu] at hrun
              dsimp only at hrun
              cases hf2 : lm.fingerprint l2 with
              | error e => rw [hf2] at hrun; cases hrun
              | ok fpPost =>
                  rw [hf2] at hrun
                  dsimp only at hrun
                  rw [ih _ _ _ hk.2 hrun]
                  by_cases hne : fpPre ≠ fpPost
                  · rw [if_pos hne, dictFind_dictInsert_ne _ _ _ _ hk.1,
                        dictFind_dictInsert_ne _ _ _ _ hk.1]
                  · rw [if_neg hne, dictFind_dictInsert_ne _ _ _ _ hk.1]

theorem collectLockfilePhase_mem {L : Type} (lm : LockfileMethods L)
    (direct : List String) (ls : List L) :
    ∀ (acc out : List (List Char × LockEntry)),
      (ls.map lm.filename).Nodup →
      collectLockfilePhase lm direct acc ls = .ok out →
      ∀ l ∈ ls,
        ∃ l2 fpPre fpPost entry,
          lm.fingerprint l = .ok fpPre ∧ lm.update l = .ok l2 ∧
          lm.fingerprint l2 = .ok fpPost ∧
          dictFind out (lm.filename l) = some entry ∧
          (entry.updated.isSome = true ↔ fpPre ≠ fpPost) ∧
          (fpPre ≠ fpPost →
            entry = ⟨fpPre, lm.get_dependencies l direct,
              some (fpPost, lm.get_dependencies l2 direct)⟩) ∧
          (fpPre = fpPost → entry = ⟨fpPre, lm.get_dependencies l direct, none⟩) := by
  induction ls with
  | nil =>
      intro acc out _ _ l hl
      cases hl
  | cons l0 rest ih =>
      intro acc out hnodup hrun l hl
      rw [List.map_cons, List.nodup_cons] at hnodup
      rw [collectLockfilePhase] at hrun
      cases hf : lm.fingerprint l0 with
      | error e => rw [hf] at hrun; cases hrun
      | ok fpPre =>
          rw [hf] at hrun
          dsimp only at hrun
          cases hu : lm.update l0 with
          | error e => rw [hu] at hrun; cases hrun
          | ok l2 =>
              rw [hu] at hrun
              dsimp only at hrun
              cases hf2 : lm.fingerprint l2 with
              | error e => rw [hf2] at hrun; cases hrun
              | ok fpPost =>
                  rw [hf2] at hrun
                  dsimp only at hrun
                  rcases List.mem_cons.mp hl with rfl | hl'
                  · refine ⟨l2, fpPre, fpPost, ?_⟩
                    have hout := collectLockfilePhase_untouched lm direct rest _ _
                      (lm.filename l) hnodup.1 hrun
                    by_cases hne : fpPre ≠ fpPost
                    · rw [if_pos hne] at hout
                      refine ⟨⟨fpPre, lm.get_dependencies l direct,
                        some (fpPost, lm.get_dependencies l2 direct)⟩, hf, hu, hf2, ?_, ?_, ?_, ?_⟩
                      · rw [hout, dictFind_dictInsert_self]
                      · simp only [Option.isSome_some, true_iff]
                        exact hne
                      · intro _; rfl
                      · intro heq; exact absurd heq hne
                    · rw [if_neg hne] at hout
                      push_neg at hne
                      refine ⟨⟨fpPre, lm.get_dependencies l direct, none⟩, hf, hu, hf2, ?_, ?_, ?_, ?_⟩
                      · rw [hout, dictFind_dictInsert_self]
                      · simp only [Option.isSome_none, Bool.false_eq_true, false_iff,
                          not_not]
                        exact hne
                      · intro hcon; exact absurd hne hcon
                      · intro _; rfl
                  · exact ih _ _ hnodup.2 hrun l hl'

/-- C1: during collection, for every processed lockfile the emitted inventory
entry contains an `updated` block (with post-update fingerprint and
dependencies) if and only if the fingerprint computed before the native
update differs from the one computed after; equal fingerprints leave an
entry with only the `current` block, inside a successfully completed run. -/
theorem collect_updated_iff_fingerprint_drift {M L : Type}
    (mm : ManifestMethods M L) (lm : LockfileMethods L) (manifests : List M)
    (out : CollectOut)
    (hnodup : ((collectManifestPhase mm manifests).2.1.map lm.filename).Nodup)
    (hrun : collect mm lm manifests = .ok out)
    (l : L) (hl : l ∈ (collectManifestPhase mm manifests).2.1) :
    ∃ l2 fpPre fpPost entry,
      lm.fingerprint l = .ok fpPre ∧ lm.update l = .ok l2 ∧
      lm.fingerprint l2 = .ok fpPost ∧
      dictFind out.lockfiles (lm.filename l) = some entry ∧
      (entry.updated.isSome = true ↔ fpPre ≠ fpPost) ∧
      (fpPre ≠ fpPost →
        entry = ⟨fpPre, lm.get_dependencies l (collectManifestPhase mm manifests).2.2,
          some (fpPost, lm.get_dependencies l2 (collectManifestPhase mm manifests).2.2)⟩) ∧
      (fpPre = fpPost →
        entry = ⟨fpPre, lm.get_dependencies l (collectManifestPhase mm manifests).2.2, none⟩) := by
  rw [collect] at hrun
  cases hp : collectLockfilePhase lm (collectManifestPhase mm manifests).2.2 []
      (collectManifestPhase mm manifests).2.1 with
  | error e => rw [hp] at hrun; cases hrun
  | ok lout =>
      rw [hp] at hrun
      dsimp only at hrun
      cases hrun
      exact collectLockfilePhase_mem lm _ _ [] lout hnodup hp l hl

def c1mm : ManifestMethods Unit Nat where
  filename _ := "requirements.txt".toList
  get_dependencies _ := ⟨[], []⟩
  lockfile _ := some 0

def c1lm : LockfileMethods Nat where
  filename _ := "Pipfile.lock".toList
  fingerprint n := .ok (if n = 0 then "sha256:aaa" else "sha256:bbb")
  get_dependencies _ _ := []
  update n := .ok (n + 1)

theorem collect_updated_iff_fingerprint_drift_witness :
    ∃ l2 fpPre fpPost entry,
      c1lm.fingerprint 0 = .ok fpPre ∧ c1lm.update 0 = .ok l2 ∧
      c1lm.fingerprint l2 = .ok fpPost ∧
      dictFind (⟨[("requirements.txt".toList, ⟨[], []⟩)],
        [("Pipfile.lock".toList, ⟨"sha256:aaa", [], some ("sha256:bbb", [])⟩)]⟩ :
          CollectOut).lockfiles (c1lm.filename 0) = some entry ∧
      (entry.updated.isSome = true ↔ fpPre ≠ fpPost) ∧
      (fpPre ≠ fpPost →
        entry = ⟨fpPre, c1lm.get_dependencies 0 (collectManifestPhase c1mm [()]).2.2,
          some (fpPost, c1lm.get_dependencies l2 (collectManifestPhase c1mm [()]).2.2)⟩) ∧
      (fpPre = fpPost →
        entry = ⟨fpPre, c1lm.get_dependencies 0 (collectManifestPhase c1mm [()]).2.2, none⟩) :=
  collect_updated_iff_fingerprint_drift c1mm c1lm [()]
    ⟨[("requirements.txt".toList, ⟨[], []⟩)],
      [("Pipfile.lock".toList, ⟨"sha256:aaa", [], some ("sha256:bbb", [])⟩)]⟩
    (by decide) rfl 0 (by decide)

theorem contains_eq_true_iff (l : List String) (k : String) :
    l.contains k = true ↔ k ∈ l := by
  simp [List.contains, List.elem_iff]

theorem contains_eq_false_iff (l : List String) (k : String) :
    l.contains k = false ↔ ¬ k ∈ l := by
  rw [Bool.eq_false_iff]
  simp [List.contains, List.elem_iff]

theorem collectManifestPhase_direct_mem_aux {M L : Type} (mm : ManifestMethods M L)
    (k : String) (ms : List M) :
    ∀ acc, k ∈ (ms.foldl (collectManifestStep mm) acc).2.2 ↔
      k ∈ acc.2.2 ∨ ∃ m ∈ ms, k ∈ (mm.get_dependencies m).currentDeps.map Prod.fst := by
  induction ms with
  | nil => intro acc; simp
  | cons m rest ih =>
      intro acc
      rw [List.foldl_cons, ih, collectManifestStep]
      dsimp only
      rw [List.mem_append]
      constructor
      · rintro ((h | h) | ⟨m', hm', h⟩)
        · exact .inl h
        · exact .inr ⟨m, List.mem_cons_self _ _, h⟩
        · exact .inr ⟨m', List.mem_cons_of_mem _ hm', h⟩
      · rintro (h | ⟨m', hm', h⟩)
        · exact .inl (.inl h)
        · rcases List.mem_cons.mp hm' with rfl | hm''
          · exact .inl (.inr h)
          · exact .inr ⟨m', hm'', h⟩

theorem collectManifestPhase_direct_mem {M L : Type} (mm : ManifestMethods M L)
    (manifests : List M) (k : String) :
    k ∈ (collectManifestPhase mm manifests).2.2 ↔
      ∃ m ∈ manifests, k ∈ (mm.get_dependencies m).currentDeps.map Prod.fst := by
  rw [collectManifestPhase, collectManifestPhase_direct_mem_aux]
  simp

theorem collectLockfilePhase_entries_prop {L : Type} (lm : LockfileMethods L)
    (direct : List String) (P : List (String × LockDepOut) → Prop)
    (hP : ∀ l, P (lm.get_dependencies l direct)) (ls : List L) :
    ∀ (acc out : List (List Char × LockEntry)),
      (∀ p ∈ acc, P p.2.currentDeps ∧ ∀ fp ds, p.2.updated = some (fp, ds) → P ds) →
      collectLockfilePhase lm direct acc ls = .ok out →
      ∀ p ∈ out, P p.2.currentDeps ∧ ∀ fp ds, p.2.updated = some (fp, ds) → P ds := by
  induction ls with
  | nil =>
      intro acc out hacc hrun
      cases hrun
      exact hacc
  | cons l rest ih =>
      intro acc out hacc hrun
      rw [collectLockfilePhase] at hrun
      cases hf : lm.fingerprint l with
      | error e => rw [hf] at hrun; cases hrun
      | ok fpPre =>
          rw [hf] at hrun
          dsimp only at hrun
          cases hu : lm.update l with
          | error e => rw [hu] at hrun; cases hrun
          | ok l2 =>
              rw [hu] at hrun
              dsimp only at hrun
              cases hf2 : lm.fingerprint l2 with
              | error e => rw [hf2] at hrun; cases hrun
              | ok fpPost =>
                  rw [hf2] at hrun
                  dsimp only at hrun
                  refine ih _ _ ?_ hrun
                  intro p hp
                  by_cases hne : fpPre ≠ fpPost
                  · rw [if_pos hne] at hp
                    rcases mem_dictInsert _ _ _ _ hp with hp1 | hp1
                    · rcases mem_dictInsert _ _ _ _ hp1 with hp2 | hp2
                      · exact hacc p hp2
                      · rw [hp2]
                        refine ⟨hP l, ?_⟩
                        intro fp ds hds
                        cases hds
                    · rw [hp1]
                      refine ⟨hP l, ?_⟩
                      intro fp ds hds
                      cases hds
                      exact hP l2
                  · rw [if_neg hne] at hp
                    rcases mem_dictInsert _ _ _ _ hp with hp1 | hp1
                    · exact hacc p hp1
                    · rw [hp1]
                      refine ⟨hP l, ?_⟩
                      intro fp ds hds
                      cases hds

/-- The parsed state of a `PipfileLock` object: its path, the parsed JSON
content (json.loads of `self.content`) and the dparse dependency list. -/
structure PipfileLockObj (V : Type) where
  filename : List Char
  jsonData : List (String × V)
  deps : List DparseDep

/-- Method table of `PipfileLock` as driven by `collect`: `fingerprint` and
`get_dependencies` are the translations above; `update` (the external
`pipenv update` subprocess followed by a reload) is an environment
parameter. -/
def pipfileLockMethods {V : Type} (dumps : List (String × V) → String)
    (sha256hex : String → String) (pipfilelock_sections : List String)
    (pipenvUpdate : PipfileLockObj V → Except Unit (PipfileLockObj V)) :
    LockfileMethods (PipfileLockObj V) where
  filename l := l.filename
  fingerprint l := PipfileLock.fingerprint dumps sha256hex l.jsonData
  get_dependencies l direct := PipfileLock.get_dependencies pipfilelock_sections l.deps direct
  update := pipenvUpdate

/-- C3: every lockfile dependency record produced by a collection run with a
non-empty global direct-dependency list has `is_transitive = true` exactly
when its name is absent from the union of the current direct-dependency
names of all manifests in the run, and `is_transitive = false` exactly when
it is present in that union. -/
theorem lockfile_is_transitive_global {M V : Type}
    (mm : ManifestMethods M (PipfileLockObj V))
    (dumps : List (String × V) → String) (sha256hex : String → String)
    (pipfilelock_sections : List String)
    (pipenvUpdate : PipfileLockObj V → Except Unit (PipfileLockObj V))
    (manifests : List M) (out : CollectOut)
    (hrun : collect mm (pipfileLockMethods dumps sha256hex pipfilelock_sections pipenvUpdate)
      manifests = .ok out)
    (hdirect : (collectManifestPhase mm manifests).2.2 ≠ [])
    (p : List Char) (entry : LockEntry) (hentry : (p, entry) ∈ out.lockfiles)
    (k : String) (r : LockDepOut)
    (hr : (k, r) ∈ entry.currentDeps ∨ ∃ fp ds, entry.updated = some (fp, ds) ∧ (k, r) ∈ ds) :
    (r.is_transitive = some true ↔
      ¬ ∃ m ∈ manifests, k ∈ (mm.get_dependencies m).currentDeps.map Prod.fst) ∧
    (r.is_transitive = some false ↔
      ∃ m ∈ manifests, k ∈ (mm.get_dependencies m).currentDeps.map Prod.fst) := by
  rw [collect] at hrun
  cases hp : collectLockfilePhase
      (pipfileLockMethods dumps sha256hex pipfilelock_sections pipenvUpdate)
      (collectManifestPhase mm manifests).2.2 [] (collectManifestPhase mm manifests).2.1 with
  | error e => rw [hp] at hrun; cases hrun
  | ok lout =>
      rw [hp] at hrun
      dsimp only at hrun
      cases hrun
      have hprop := collectLockfilePhase_entries_prop
        (pipfileLockMethods dumps sha256hex pipfilelock_sections pipenvUpdate)
        (collectManifestPhase mm manifests).2.2
        (fun ds => ∀ q ∈ ds,
          q.2.is_transitive = some (!(((collectManifestPhase mm manifests).2.2).contains q.1)))
        (fun l => by
          intro q hq
          exact pipfileLock_get_dependencies_transitive pipfilelock_sections l.deps _ hdirect q hq)
        _ [] lout (by intro q hq; cases hq) hp (p, entry) hentry
      have htr : r.is_transitive =
          some (!(((collectManifestPhase mm manifests).2.2).contains k)) := by
        rcases hr with h | ⟨fp, ds, hupd, h⟩
        · exact hprop.1 (k, r) h
        · exact hprop.2 fp ds hupd (k, r) h
      rw [htr]
      have hmem := collectManifestPhase_direct_mem mm manifests k
      constructor
      · rw [Option.some.injEq, Bool.not_eq_true', contains_eq_false_iff, hmem]
      · rw [Option.some.injEq, Bool.not_eq_false', contains_eq_true_iff, hmem]

def c3lock : PipfileLockObj Unit :=
  ⟨"Pipfile.lock".toList, [("_meta", ())],
    [⟨"A", "==1.0", fun _ => true, "pypi", "default"⟩,
     ⟨"B", "==1.0", fun _ => true, "pypi", "default"⟩,
     ⟨"C", "==1.0", fun _ => true, "pypi", "default"⟩]⟩

def c3mm : ManifestMethods Unit (PipfileLockObj Unit) where
  filename _ := "Pipfile".toList
  get_dependencies _ := ⟨[("A", ⟨"pypi", "*"⟩), ("B", ⟨"pypi", "*"⟩)], []⟩
  lockfile _ := some c3lock

theorem lockfile_is_transitive_global_witness :
    ((⟨"pypi", "1.0", some true⟩ : LockDepOut).is_transitive = some true ↔
      ¬ ∃ m ∈ [()], "C" ∈ (c3mm.get_dependencies m).currentDeps.map Prod.fst) ∧
    ((⟨"pypi", "1.0", some true⟩ : LockDepOut).is_transitive = some false ↔
      ∃ m ∈ [()], "C" ∈ (c3mm.get_dependencies m).currentDeps.map Prod.fst) :=
  lockfile_is_transitive_global c3mm (fun _ => "") (fun s => s) ["default"] (fun l => .ok l)
    [()]
    ⟨[("Pipfile".toList, ⟨[("A", ⟨"pypi", "*"⟩), ("B", ⟨"pypi", "*"⟩)], []⟩)],
      [("Pipfile.lock".toList,
        ⟨"sha256:",
          [("A", ⟨"pypi", "1.0", some false⟩), ("B", ⟨"pypi", "1.0", some false⟩),
            ("C", ⟨"pypi", "1.0", some true⟩)], none⟩)]⟩
    rfl (by decide) "Pipfile.lock".toList
    ⟨"sha256:",
      [("A", ⟨"pypi", "1.0", some false⟩), ("B", ⟨"pypi", "1.0", some false⟩),
        ("C", ⟨"pypi", "1.0", some true⟩)], none⟩
    (by decide) "C" ⟨"pypi", "1.0", some true⟩ (.inl (by decide))

/-! Fingerprint purity (C7). A `DepFileSt` is the state of a loaded
`DepFile` object (the fields `__init__` and `_load` set, plus the lazy
outdated cache slot). `DepFile.fingerprint` (src/models.py lines 60-61)
reads `self.content` only; hashlib's md5 hexdigest is the `md5hex`
parameter. A method call is modelled as a state transformer returning the
value together with the object state after the call. -/

structure DepFileSt where
  filename : List Char
  content : String
  outdatedCache : Option (List OutdatedItem)

namespace DepFile

/-- Translation of the base `DepFile.fingerprint`: hash the raw content; the
object state is untouched. -/
def fingerprintCall (md5hex : String → String) (s : DepFileSt) : String × DepFileSt :=
  (md5hex s.content, s)

end DepFile

/-- The overriding `PipfileLock.fingerprint` as a method call on the parsed
object state: compute the filtered digest; the object state is untouched. -/
def pipfileLockFingerprintCall {V : Type} (dumps : List (String × V) → String)
    (sha256hex : String → String) (l : PipfileLockObj V) :
    Except Unit String × PipfileLockObj V :=
  (PipfileLock.fingerprint dumps sha256hex l.jsonData, l)

/-- C7: `fingerprint()` is a pure function of the file's content and dialect
rules: a call leaves the object state unchanged, a second call without an
intervening write returns the same value, and any two states with the same
content fingerprint equally — both for the base `DepFile.fingerprint` and
for the overriding `PipfileLock.fingerprint`. -/
theorem fingerprint_pure (md5hex : String → String) {V : Type}
    (dumps : List (String × V) → String) (sha256hex : String → String)
    (s : DepFileSt) (l : PipfileLockObj V) :
    ((DepFile.fingerprintCall md5hex s).2 = s ∧
      (DepFile.fingerprintCall md5hex ((DepFile.fingerprintCall md5hex s).2)).1 =
        (DepFile.fingerprintCall md5hex s).1) ∧
    (∀ s2 : DepFileSt, s2.content = s.content →
      (DepFile.fingerprintCall md5hex s2).1 = (DepFile.fingerprintCall md5hex s).1) ∧
    ((pipfileLockFingerprintCall dumps sha256hex l).2 = l ∧
      (pipfileLockFingerprintCall dumps sha256hex
          ((pipfileLockFingerprintCall dumps sha256hex l).2)).1 =
        (pipfileLockFingerprintCall dumps sha256hex l).1) ∧
    (∀ l2 : PipfileLockObj V, l2.jsonData = l.jsonData →
      (pipfileLockFingerprintCall dumps sha256hex l2).1 =
        (pipfileLockFingerprintCall dumps sha256hex l).1) := by
  refine ⟨⟨rfl, rfl⟩, ?_, ⟨rfl, rfl⟩, ?_⟩
  · intro s2 h
    simp [DepFile.fingerprintCall, h]
  · intro l2 h
    simp [pipfileLockFingerprintCall, h]

theorem fingerprint_pure_witness :
    (DepFile.fingerprintCall (fun t => t) ⟨"b.txt".toList, "abc", none⟩).1 =
      (DepFile.fingerprintCall (fun t => t) ⟨"a.txt".toList, "abc", some []⟩).1 :=
  (fingerprint_pure (fun t => t) (fun _ : List (String × Unit) => "") (fun t => t)
      ⟨"a.txt".toList, "abc", some []⟩ ⟨"Pipfile.lock".toList, [], []⟩).2.1
    ⟨"b.txt".toList, "abc", none⟩ rfl

/-! The `_outdated` cached property (C8, src/models.py lines 34-44). Python
instance attributes are a string-keyed mapping. Inside `class DepFile` the
attribute reference `self.__outdated` is name-mangled by Python to
`_DepFile__outdated`, while the string literal in
`hasattr(self, "__outdated")` is left as written. The external
`pip list --local --outdated` result is the `pipList` parameter, and the
number of pip invocations performed so far is threaded as an explicit
counter. -/

structure PyDepFile where
  dirPath : List Char
  attrs : List (String × List OutdatedItem)
deriving DecidableEq

/-- Python `hasattr(self, name)` over the modelled attribute store. -/
def hasattrB (s : PyDepFile) (name : String) : Bool := (dictFind s.attrs name).isSome

/-- Translation of the `_outdated` property body: if `hasattr(self,
"__outdated")` is false, run pip and store the parsed result under the
mangled attribute name `_DepFile__outdated` (incrementing the invocation
counter); then return `self.__outdated`, i.e. read the mangled name (`none`
models the AttributeError were that read to miss). -/
def outdatedProperty (pipList : List OutdatedItem) (s : PyDepFile) (calls : Nat) :
    Option (List OutdatedItem × PyDepFile × Nat) :=
  let step := if hasattrB s "__outdated" then (s, calls)
    else ({ s with attrs := dictInsert s.attrs "_DepFile__outdated" pipList }, calls + 1)
  match dictFind step.1.attrs "_DepFile__outdated" with
  | some v => some (v, step.1, step.2)
  | none => none

/-- C8 (code bug): the `_outdated` cache never hits. On a fresh object the
first access invokes pip (counter 1) and stores the list under the mangled
attribute name, yet a second access on the resulting state invokes pip again
(counter 2) instead of returning the cached value, because
`hasattr(self, "__outdated")` tests the unmangled name that is never set. -/
theorem outdated_cache_never_hits :
    outdatedProperty [⟨"foo", "2.0"⟩] ⟨"proj".toList, []⟩ 0 =
      some ([⟨"foo", "2.0"⟩],
        ⟨"proj".toList, [("_DepFile__outdated", [⟨"foo", "2.0"⟩])]⟩, 1) ∧
    outdatedProperty [⟨"foo", "2.0"⟩]
        ⟨"proj".toList, [("_DepFile__outdated", [⟨"foo", "2.0"⟩])]⟩ 1 =
      some ([⟨"foo", "2.0"⟩],
        ⟨"proj".toList, [("_DepFile__outdated", [⟨"foo", "2.0"⟩])]⟩, 2) :=
  ⟨rfl, rfl⟩

/-! Manifest-graph resolution (C2, src/models.py lines 300-315).
`load_dependency_files` loads the starting file and, when the loaded file
has a dparse parser (`f.dparser` is None for the poetry variants), recurses
into every path of the parser's `resolved_files` — with no visited-path
tracking of any kind. The recursion is modelled with an explicit call-depth
fuel: `none` means the call has not returned within that depth, so a result
that is `none` for every fuel is a non-terminating run (Python's
RecursionError). `FileEnv` gives the two parser facts per path. -/

structure FileEnv where
  hasDparser : List Char → Bool
  resolvedFiles : List Char → List (List Char)

mutual

/-- Fuel-indexed translation of `load_dependency_files`: `files = [f]`, then
for each resolved file extend with the recursive result. -/
def loadDependencyFiles (fuel : Nat) (env : FileEnv) (path : List Char) :
    Option (List (List Char)) :=
  match fuel with
  | 0 => none
  | n + 1 =>
      if env.hasDparser path then
        match loadDependencyFilesList n env (env.resolvedFiles path) with
        | none => none
        | some rest => some (path :: rest)
      else some [path]
termination_by (fuel, 0)

/-- The `for file in f.dparser.resolved_files` loop: sibling recursive calls
run at the same call depth. -/
def loadDependencyFilesList (fuel : Nat) (env : FileEnv) (paths : List (List Char)) :
    Option (List (List Char)) :=
  match paths with
  | [] => some []
  | q :: qs =>
      match loadDependencyFiles fuel env q with
      | none => none
      | some a =>
          match loadDependencyFilesList fuel env qs with
          | none => none
          | some b => some (a ++ b)
termination_by (fuel, paths.length + 1)

end

/-- C2 (code bug): manifest-graph resolution does not track visited paths,
so it does not terminate on a manifest that references itself: at every call
depth the fuel-indexed model of `load_dependency_files` has still not
returned. -/
theorem load_dependency_files_self_reference_diverges (fuel : Nat) :
    loadDependencyFiles fuel
      ⟨fun _ => true, fun _ => ["requirements.txt".toList]⟩
      "requirements.txt".toList = none := by
  induction fuel with
  | zero => rw [loadDependencyFiles]
  | succ n ih =>
      rw [loadDependencyFiles]
      dsimp only
      rw [loadDependencyFilesList, ih]
      simp

/-! Action engine (src/act.py). src/act.py drives `Manifest` and `LockFile`
classes that are not defined in src/models.py (the import line names a
historical variant of the module); their interfaces are modelled from the
spec where noted. The loop structure, the dictionary lookups and the absence
of any error handling are translated from src/act.py itself. -/

inductive ActError where
  | nativeToolError
  | keyError
  | indexError
deriving DecidableEq

/-- The `updated` block of a lockfile entry in the inventory read by `act`. -/
structure UpdatedBlock where
  dependencies : List (String × LockDepOut)
  fingerprint : String
deriving DecidableEq

/-- One entry of the `lockfiles` mapping in the inventory document read by
`act`; either block may be absent from the JSON (`none`). -/
structure ActLockEntry where
  current : Option UpdatedBlock
  updated : Option UpdatedBlock
deriving DecidableEq

/-- Modelled from the spec: the `LockFile` class named by src/act.py is
absent from src/models.py. Per spec §4.1 and §4.5, `native_update()` invokes
the external locker (`NativeToolError` on failure) and the subsequent
`dio_dependencies()` and `fingerprint()` calls report the re-captured
post-update state; the environment maps each lockfile path to that
outcome. -/
structure ActLockEnv where
  nativeUpdate : List Char → Except Unit (List (String × LockDepOut) × String)

/-- Lockfile loop of `act` (src/act.py lines 12-23): unconditionally trigger
the native update, then write the re-captured dependencies and fingerprint
into the entry's existing `updated` block — the subscript
`lockfile_data['updated']` raises KeyError when that block is absent. Any
raised error aborts the whole run. -/
def actLockfiles (env : ActLockEnv) :
    List (List Char × ActLockEntry) → Except ActError (List (List Char × ActLockEntry))
  | [] => .ok []
  | (p, e) :: rest =>
      match env.nativeUpdate p with
      | .error _ => .error .nativeToolError
      | .ok (deps, fp) =>
          match e.updated with
          | none => .error .keyError
          | some _ =>
              match actLockfiles env rest with
              | .error err => .error err
              | .ok rest2 => .ok ((p, { e with updated := some ⟨deps, fp⟩ }) :: rest2)

/-- C9: the action phase requires every lockfile entry of its input
inventory to already carry an `updated` block: an inventory with a lockfile
entry lacking `updated` (the legitimate collect output when nothing changed)
is rejected with an error rather than skipped, while on success every entry
has had its native update triggered and its `updated` block overwritten with
the re-captured dependencies and fingerprint. -/
theorem act_lockfiles_require_updated (env : ActLockEnv)
    (entries : List (List Char × ActLockEntry)) :
    ((∃ pe ∈ entries, pe.2.updated = none) →
      ∀ out, actLockfiles env entries ≠ .ok out) ∧
    (∀ out, actLockfiles env entries = .ok out →
      List.Forall₂ (fun (pe qe : List Char × ActLockEntry) =>
        qe.1 = pe.1 ∧ ∃ deps fp, env.nativeUpdate pe.1 = .ok (deps, fp) ∧
          qe.2 = { pe.2 with updated := some ⟨deps, fp⟩ }) entries out) := by
  induction entries with
  | nil =>
      constructor
      · rintro ⟨pe, hpe, _⟩
        cases hpe
      · intro out hok
        cases hok
        exact List.Forall₂.nil
  | cons pe0 rest ih =>
      obtain ⟨p, e⟩ := pe0
      constructor
      · rintro ⟨pe, hpe, hnone⟩ out hok
        rw [actLockfiles] at hok
        cases hn : env.nativeUpdate p with
        | error err => rw [hn] at hok; cases hok
        | ok r =>
            obtain ⟨deps, fp⟩ := r
            rw [hn] at hok
            dsimp only at hok
            cases he : e.updated with
            | none => rw [he] at hok; cases hok
            | some b =>
                rw [he] at hok
                dsimp only at hok
                cases hr : actLockfiles env rest with
                | error err => rw [hr] at hok; cases hok
                | ok rest2 =>
                    rw [hr] at hok
                    rcases List.mem_cons.mp hpe with rfl | hpe'
                    · rw [he] at hnone
                      cases hnone
                    · exact ih.1 ⟨pe, hpe', hnone⟩ rest2 hr
      · intro out hok
        rw [actLockfiles] at hok
        cases hn : env.nativeUpdate p with
        | error err => rw [hn] at hok; cases hok
        | ok r =>
            obtain ⟨deps, fp⟩ := r
            rw [hn] at hok
            dsimp only at hok
            cases he : e.updated with
            | none => rw [he] at hok; cases hok
            | some b =>
                rw [he] at hok
                dsimp only at hok
                cases hr : actLockfiles env rest with
                | error err => rw [hr] at hok; cases hok
                | ok rest2 =>
                    rw [hr] at hok
                    dsimp only at hok
                    cases hok
                    exact List.Forall₂.cons ⟨rfl, deps, fp, hn, rfl⟩ (ih.2 rest2 hr)

theorem act_lockfiles_require_updated_witness :
    actLockfiles ⟨fun _ => .ok ([], "sha256:x")⟩
      [("Pipfile.lock".toList, ⟨none, none⟩)] ≠
      .ok [("Pipfile.lock".toList, ⟨none, none⟩)] :=
  (act_lockfiles_require_updated ⟨fun _ => .ok ([], "sha256:x")⟩
      [("Pipfile.lock".toList, ⟨none, none⟩)]).1
    ⟨("Pipfile.lock".toList, ⟨none, none⟩), by decide, rfl⟩
    [("Pipfile.lock".toList, ⟨none, none⟩)]

/-- Modelled from the spec: the `Manifest` class named by src/act.py is
absent from src/models.py. Per spec §4.1, `dependencies()` parses the
manifest text on disk and `updater(...)` is the pure single-dependency
rewrite that preserves every other declaration — in particular the set of
parsed dependency keys of a path is stable across the loop. The environment
gives those parsed keys per path. -/
structure ActManifestEnv where
  depKeys : List Char → List String

/-- One performed manifest rewrite (the `manifest.updater` result written
back to `manifest_path`). -/
structure ActWrite where
  path : List Char
  dependency : String
  version : String
deriving DecidableEq

/-- Inner loop of the manifest phase of `act` (src/act.py lines 26-50), over
the `updated.dependencies` items of one manifest: look up the current
constraint (KeyError when the name is absent from `current`), locate the
dependency among the parsed dependencies — the expression
`[x for x in manifest.dependencies() if x.key == dependency_name][0]` raises
IndexError when nothing matches — then rewrite and persist. An error aborts
the loop, keeping the writes already made. -/
def actManifestDeps (env : ActManifestEnv) (p : List Char)
    (cur : List (String × DepOut)) :
    List (String × DepOut) → List ActWrite × Option ActError
  | [] => ([], none)
  | (name, u) :: rest =>
      match dictFind cur name with
      | none => ([], some .keyError)
      | some _ =>
          if (env.depKeys p).contains name then
            match actManifestDeps env p cur rest with
            | (ws, e) => (⟨p, name, u.constraint⟩ :: ws, e)
          else ([], some .indexError)

/-- Manifest loop of the action phase (src/act.py lines 25-50): process each
manifest's updated dependencies in order; an error aborts the whole run
(there is no handler), keeping the writes already performed. -/
def actManifests (env : ActManifestEnv) :
    List (List Char × PhaseDeps) → List ActWrite × Option ActError
  | [] => ([], none)
  | (p, md) :: rest =>
      match actManifestDeps env p md.currentDeps md.updatedDeps with
      | (ws, some err) => (ws, some err)
      | (ws, none) =>
          match actManifests env rest with
          | (ws2, e2) => (ws ++ ws2, e2)

/-- C5 (counterexample): a run on two manifests where the first one's
`updated` section names a dependency absent from the manifest on disk aborts
with the uncaught IndexError and performs no rewrite at all — in particular
the second manifest's applicable rewrite is not performed, contradicting the
claim that the failure is a recoverable `DependencyNotFound` and processing
continues with the remaining manifests. -/
theorem act_missing_dependency_counterexample :
    actManifests ⟨fun p => if p = "m1.txt".toList then ["y"] else ["a"]⟩
      [("m1.txt".toList, ⟨[("x", ⟨"pypi", "*"⟩)], [("x", ⟨"pypi", "==2.0"⟩)]⟩),
       ("m2.txt".toList, ⟨[("a", ⟨"pypi", "*"⟩)], [("a", ⟨"pypi", "==3.0"⟩)]⟩)] =
      ([], some ActError.indexError) ∧
    (⟨"m2.txt".toList, "a", "==3.0"⟩ : ActWrite) ∉
      (actManifests ⟨fun p => if p = "m1.txt".toList then ["y"] else ["a"]⟩
        [("m1.txt".toList, ⟨[("x", ⟨"pypi", "*"⟩)], [("x", ⟨"pypi", "==2.0"⟩)]⟩),
         ("m2.txt".toList, ⟨[("a", ⟨"pypi", "*"⟩)], [("a", ⟨"pypi", "==3.0"⟩)]⟩)]).1 :=
  ⟨rfl, by decide⟩

theorem actManifestDeps_first_missing (env : ActManifestEnv) (p : List Char)
    (cur : List (String × DepOut)) (name : String) (u : DepOut)
    (updRest : List (String × DepOut))
    (hcur : (dictFind cur name).isSome = true)
    (hmiss : (env.depKeys p).contains name = false) :
    actManifestDeps env p cur ((name, u) :: updRest) = ([], some ActError.indexError) := by
  rw [actManifestDeps]
  cases hc : dictFind cur name with
  | none => rw [hc] at hcur; cases hcur
  | some c =>
      dsimp only
      rw [hmiss]
      simp

/-- C5 (amended): when the first updated dependency of a reached manifest
cannot be located among the manifest's parsed dependencies, the action
rewrite loop aborts at once with the uncaught IndexError: no rewrite is
performed for that manifest or for any later one, and there is no
per-manifest `DependencyNotFound` recovery. -/
theorem act_missing_dependency_aborts (env : ActManifestEnv) (p : List Char)
    (md : PhaseDeps) (rest : List (List Char × PhaseDeps))
    (name : String) (u : DepOut) (updRest : List (String × DepOut))
    (hupd : md.updatedDeps = (name, u) :: updRest)
    (hcur : (dictFind md.currentDeps name).isSome = true)
    (hmiss : (env.depKeys p).contains name = false) :
    actManifests env ((p, md) :: rest) = ([], some ActError.indexError) := by
  rw [actManifests, hupd,
    actManifestDeps_first_missing env p md.currentDeps name u updRest hcur hmiss]

theorem act_missing_dependency_aborts_witness :
    actManifests ⟨fun _ => ["y"]⟩
      [("m1.txt".toList, ⟨[("x", ⟨"pypi", "*"⟩)], [("x", ⟨"pypi", "==2.0"⟩)]⟩)] =
      ([], some ActError.indexError) :=
  act_missing_dependency_aborts ⟨fun _ => ["y"]⟩ "m1.txt".toList
    ⟨[("x", ⟨"pypi", "*"⟩)], [("x", ⟨"pypi", "==2.0"⟩)]⟩ [] "x" ⟨"pypi", "==2.0"⟩ []
    rfl (by decide) (by decide)

end DepsPython
